import Mathlib

/-!
Verification of the temporal annotation pipeline of `lerobot-annotate`.

The Lean definitions below are shallow embeddings of the Python source:

* `app.py` — `assign_indices_by_segments`, `build_subtasks_dataframe`,
  `build_high_level_dataframe`, `make_task_key`,
  `DataManager._calculate_video_offsets`;
* `ai_plugin_impl/engine.py` — `_merge_adjacent_subtasks` and the
  persistence steps of `AIAnnotator.generate_subtasks` /
  `AIAnnotator.generate_fake_vqa`;
* `ai_plugin_impl/json_parse.py` — `extract_json_object` (with a model of
  Python's `json.loads` restricted to the standard JSON grammar);
* `ai_plugin_impl/sampler.py` — `FrameSampler.extract_frame` /
  `FrameSampler.extract_clip` as explicit state transformers over a cache
  file system, recording the trace of file-system operations;
* `ai_plugin_impl/adapter.py` — `get_episode_timing`.

Python floats are modelled as rationals (`ℚ`): every operation the claims
exercise on them is a comparison, a copy, an addition, a `max`, or a division,
and all concrete inputs appearing in the claims are exactly representable.
Python dicts appear either as association lists in insertion order (lookup
via `List.lookup`) or as `Option`-valued fields, as noted at each definition.
-/

/-! ### `app.py`: interval assignment (`assign_indices_by_segments`) -/

/-- Subtask segment: the `{start, end, label}` records stored in an
episode's `subtasks` list (`app.py`, `SegmentSubtask`).  The Python key
`end` is a Lean keyword and is called `stop` here. -/
structure Seg where
  start : ℚ
  stop : ℚ
  label : String
deriving DecidableEq, Repr

/-- Sorting step of `assign_indices_by_segments` (`app.py`):
`sorted(segments, key=lambda s: float(s.get("start", 0)))`.
Python's `sorted` is a stable merge sort, embedded via `List.mergeSort`. -/
def sortSegs (segs : List Seg) : List Seg :=
  segs.mergeSort (fun a b => decide (a.start ≤ b.start))

/-- Matching test of the inner loop of `assign_indices_by_segments`:
`(start <= ts_val < end) or (is_last and ts_val <= end)`. -/
def segMatches (s : Seg) (isLast : Bool) (ts : ℚ) : Bool :=
  (decide (s.start ≤ ts) && decide (ts < s.stop)) || (isLast && decide (ts ≤ s.stop))

/-- Inner scan of `assign_indices_by_segments`: iterate over the sorted
segments with their position `i` (`total` is the length of the sorted list,
so `i == total - 1` is the `is_last` test), returning the first match. -/
def findSegAux (total : ℕ) (i : ℕ) (segs : List Seg) (ts : ℚ) : Option Seg :=
  match segs with
  | [] => none
  | s :: rest =>
    if segMatches s (i == total - 1) ts then some s
    else findSegAux total (i + 1) rest ts

/-- Embedding of `assign_indices_by_segments` (`app.py`) at
`label_key = "label"` (the subtask instantiation; the `task_key` branch
replaces the label by `make_task_key(seg)`, whose embedding appears with the
high-level definitions below).  The Python `mapping` dict becomes an
association list; `mapping.get(label, -1)` becomes
`(mapping.lookup label).getD (-1)`. -/
def assign_indices_by_segments (timestamps : List ℚ) (segments : List Seg)
    (mapping : List (String × ℤ)) : List ℤ :=
  if segments = [] then timestamps.map (fun _ => (-1 : ℤ))
  else
    let sortedSegs := sortSegs segments
    timestamps.map (fun ts =>
      match findSegAux sortedSegs.length 0 sortedSegs ts with
      | none => -1
      | some s => (mapping.lookup s.label).getD (-1))

/-- Specification-side selector: the first segment of `segs` (with its
position) satisfying the match predicate, expressed with `List.find?` over
`List.enum` instead of the source's indexed loop. -/
def firstMatch (segs : List Seg) (ts : ℚ) : Option (ℕ × Seg) :=
  (segs.enum).find? (fun p => segMatches p.2 (p.1 == segs.length - 1) ts)

/-- Position of the first matching sorted segment, if any. -/
def firstMatchIdx (segs : List Seg) (ts : ℚ) : Option ℕ :=
  (firstMatch segs ts).map Prod.fst

/-- Positional label-to-index mapping: each segment of the sorted list is
mapped to its position, the reading of claim C1's "index of the first sorted
segment". -/
def positionalMap (segs : List Seg) : List (String × ℤ) :=
  (sortSegs segs).enum.map (fun p => (p.2.label, (p.1 : ℤ)))

/-! ### `app.py`: label-to-index mappings built at export time -/

/-- High-level (QA pair) segment: the records stored in an episode's
`high_levels` list (`app.py`, `SegmentHighLevel`).  `skill` may be stored
as `None`, which `make_task_key` turns into the empty string via `or ""`;
the two type tags are strings in every record the pipeline produces. -/
structure HSeg where
  start : ℚ
  stop : ℚ
  user_prompt : String
  robot_utterance : String
  skill : Option String
  scenario_type : String
  response_type : String
deriving DecidableEq, Repr

/-- Point QA label: the records stored in an episode's `qa_labels` list
(`app.py`, `SegmentQALabel`). -/
structure QALabel where
  frame_idx : ℤ
  qtype : String
  question : String
  answer : String
deriving DecidableEq, Repr

/-- Per-episode annotation state (`app.py`, `EpisodeAnnotations`). -/
structure EpAnn where
  subtasks : List Seg
  high_levels : List HSeg
  qa_labels : List QALabel
deriving Repr

/-- The loaded annotation set: the `annotations: dict[int, EpisodeAnnotations]`
of `DataManager`, in insertion order. -/
def AnnSet := List (ℕ × EpAnn)

/-- Embedding of `make_task_key` (`app.py`): join of the five identifying
fields with `"||"`, with a `None` skill normalised to `""`. -/
def make_task_key (h : HSeg) : String :=
  String.intercalate "||"
    [h.user_prompt, h.robot_utterance, h.skill.getD "", h.scenario_type, h.response_type]

/-- Kernel-computable strict lexicographic order on character lists,
the order Python uses to compare strings (by code point). -/
def charsLtB : List Char → List Char → Bool
  | [], [] => false
  | [], _ :: _ => true
  | _ :: _, [] => false
  | a :: as, b :: bs => if a < b then true else if b < a then false else charsLtB as bs

/-- Strict string order by code points, as used by Python's `sorted`. -/
def strLtB (a b : String) : Bool := charsLtB a.data b.data

/-- The associated non-strict order. -/
def strLeB (a b : String) : Bool := !(strLtB b a)

/-- All subtask label strings of the annotation set, in traversal order
(the iteration `for ann in annotations.values() for seg in ann.subtasks`). -/
def allSubtaskLabels (anns : AnnSet) : List String :=
  (anns.flatMap (fun p => p.2.subtasks)).map Seg.label

/-- Embedding of the mapping built by `build_subtasks_dataframe` (`app.py`):
`labels = sorted({seg["label"] ... if seg.get("label")})` and
`subtask_map = {label: idx for idx, label in enumerate(labels)}`.
The set comprehension with the truthiness filter becomes
`filter (· ≠ "")` followed by `dedup`; `sorted` becomes a merge sort under
the code-point order. -/
def build_subtask_map (anns : AnnSet) : List (String × ℤ) :=
  let labels := (((allSubtaskLabels anns).filter (fun l => !(l == ""))).dedup).mergeSort strLeB
  labels.enum.map (fun p => (p.2, (p.1 : ℤ)))

/-- First-seen keep-first deduplication of a list of strings. -/
def firstSeenList (l : List String) : List String :=
  l.foldl (fun acc x => if x ∈ acc then acc else acc ++ [x]) []

/-- Modelled from the spec's words for claim C3 ("assigns indices in
first-seen order of the labels"): the subtask label map that numbers the
distinct non-empty labels in the order they are first traversed.  Compared
against `build_subtask_map`, which embeds the source. -/
def firstSeenSubtaskMap (anns : AnnSet) : List (String × ℤ) :=
  (firstSeenList ((allSubtaskLabels anns).filter (fun l => !(l == "")))).enum.map
    (fun p => (p.2, (p.1 : ℤ)))

/-- All task keys of the annotation set, in traversal order. -/
def allTaskKeys (anns : AnnSet) : List String :=
  (anns.flatMap (fun p => p.2.high_levels)).map make_task_key

/-- One step of the `task_map` construction in `build_high_level_dataframe`
(`app.py`): `if key not in task_map: task_map[key] = len(task_map)`. -/
def keyStep (m : List (String × ℤ)) (key : String) : List (String × ℤ) :=
  match m.lookup key with
  | some _ => m
  | none => m ++ [(key, (m.length : ℤ))]

/-- Embedding of the `task_map` built by `build_high_level_dataframe`
(`app.py`): iterate over every high-level segment of every episode and
assign each previously unseen task key the next index. -/
def build_high_level_map (anns : AnnSet) : List (String × ℤ) :=
  anns.foldl (fun m p => p.2.high_levels.foldl (fun m' h => keyStep m' (make_task_key h)) m) []

/-! ### `ai_plugin_impl/engine.py`: merge post-processing and persistence -/

/-- Floor of a rational, written directly over the numerator and
denominator so that it evaluates in the kernel. -/
def ratFloor (x : ℚ) : ℤ := Int.fdiv x.num (x.den : ℤ)

/-- Round-half-to-even to the nearest integer, the rounding Python's
built-in `round` applies. -/
def roundHalfEven (x : ℚ) : ℤ :=
  let f := ratFloor x
  let r := x - (f : ℚ)
  if r < 1/2 then f
  else if 1/2 < r then f + 1
  else if f % 2 = 0 then f else f + 1

/-- Embedding of Python's `round(x, 3)` on the exact rational value:
millisecond rounding used by `_merge_adjacent_subtasks`. -/
def round3 (x : ℚ) : ℚ := (roundHalfEven (x * 1000) : ℚ) / 1000

/-- Main loop of `_merge_adjacent_subtasks` (`ai_plugin_impl/engine.py`).
`acc` is the `out` list in reverse so that the Python mutation of `out[-1]`
is a head update: if the previous kept segment has the same label and
`prev.end >= s.start`, extend its end to `max(prev.end, s.end)`; otherwise
keep `s` as a new segment. -/
def mergeLoop (acc : List Seg) (rest : List Seg) : List Seg :=
  match rest with
  | [] => acc.reverse
  | s :: rest' =>
    match acc with
    | [] => mergeLoop [s] rest'
    | prev :: accTail =>
      if prev.label = s.label ∧ prev.stop ≥ s.start then
        mergeLoop ({ prev with stop := max prev.stop s.stop } :: accTail) rest'
      else
        mergeLoop (s :: prev :: accTail) rest'

/-- Embedding of `_merge_adjacent_subtasks` (`ai_plugin_impl/engine.py`):
the merge loop followed by the final millisecond rounding of every `start`
and `end`. -/
def merge_adjacent_subtasks (segments : List Seg) : List Seg :=
  (mergeLoop [] segments).map (fun s => { s with start := round3 s.start, stop := round3 s.stop })

/-- One iteration of the merge loop stated on the forward output list
(`out` in source order, the processed segment compared against
`out[-1]`): used to characterize `mergeLoop` as a left fold over the whole
input, which makes the cascaded behaviour — the previous segment may
itself be the result of earlier merges — explicit. -/
def mergeStep (out : List Seg) (s : Seg) : List Seg :=
  match out.getLast? with
  | none => [s]
  | some prev =>
    if prev.label = s.label ∧ prev.stop ≥ s.start then
      out.dropLast ++ [{ prev with stop := max prev.stop s.stop }]
    else out ++ [s]

/-- Modelled from the spec's words for claim C7 ("one segment whose end is
the later segment's end"): the same loop except that a merge sets the end
to the later (second) segment's end instead of the maximum of the two.
Compared against `mergeLoop`, which embeds the source. -/
def mergeSpecLoop (acc : List Seg) (rest : List Seg) : List Seg :=
  match rest with
  | [] => acc.reverse
  | s :: rest' =>
    match acc with
    | [] => mergeSpecLoop [s] rest'
    | prev :: accTail =>
      if prev.label = s.label ∧ prev.stop ≥ s.start then
        mergeSpecLoop ({ prev with stop := s.stop } :: accTail) rest'
      else
        mergeSpecLoop (s :: prev :: accTail) rest'

/-- The spec-side merge for claim C7, with the same final rounding. -/
def merge_adjacent_spec (segments : List Seg) : List Seg :=
  (mergeSpecLoop [] segments).map (fun s => { s with start := round3 s.start, stop := round3 s.stop })

/-- Persistence step of `AIAnnotator.generate_subtasks`
(`ai_plugin_impl/engine.py`, end of the function): `if req.mode == "replace":
ann.subtasks = segments else: ann.subtasks = (ann.subtasks or []) + segments`.
The `resume_from_last` flag is a parameter of the call but is not consulted
at this step in the source. -/
def generate_subtasks_persist (mode : String) (resume_from_last : Bool)
    (prior segments : List Seg) : List Seg :=
  if mode == "replace" then segments else prior ++ segments

/-- Persistence step of `AIAnnotator.generate_fake_vqa`
(`ai_plugin_impl/engine.py`): `effective_mode = "append" if
bool(req.resume_from_last) else req.mode`, then replace or append. -/
def generate_fake_vqa_persist (mode : String) (resume_from_last : Bool)
    (prior segments : List HSeg) : List HSeg :=
  let effective_mode := if resume_from_last then "append" else mode
  if effective_mode == "replace" then segments else prior ++ segments

/-! ### `ai_plugin_impl/sampler.py`: media cache -/

/-- Cache identity of a derived media artifact.  The source computes the
file name as a SHA-1 of the formatted tuple (`_frame_path` / `_clip_path`);
the hash of the key tuple is modelled by the key tuple itself (fixed-point
formatting of the rationals only coarsens key equality, and SHA-1 is
assumed collision-free). -/
inductive CacheKey where
  | frame (video : String) (ts : ℚ) (maxSide : ℕ)
  | clip (video : String) (startSec endSec fps : ℚ) (maxSide : ℕ)
deriving DecidableEq, Repr

/-- The cache directory contents: association of cache keys to the bytes
of the stored file. -/
def CacheFS := List (CacheKey × List ℕ)

/-- File-system operations a sampler call can perform, the vocabulary in
which claim C9's write protocol is stated. -/
inductive FsOp where
  | mkdirParents
  | transcoderWriteFinal (target : CacheKey)
  | atomicRename (target : CacheKey)
deriving DecidableEq, Repr

/-- Contents stored at a key, if any. -/
def readCache (fs : CacheFS) (k : CacheKey) : Option (List ℕ) :=
  List.lookup k fs

/-- The validity check of the sampler:
`out_path.exists() and out_path.stat().st_size > 0`. -/
def validEntry (fs : CacheFS) (k : CacheKey) : Bool :=
  match readCache fs k with
  | some c => !(c.isEmpty)
  | none => false

/-- Overwrite (or create) the entry at a key. -/
def writeCache (fs : CacheFS) (k : CacheKey) (c : List ℕ) : CacheFS :=
  (k, c) :: (List.filter (fun p => !(p.1 == k)) fs)

/-- Embedding of `FrameSampler.extract_frame` (`ai_plugin_impl/sampler.py`).
`ffmpeg` models the external transcoder: `none` is a non-zero exit (the
`CalledProcessError` branch), `some bytes` the file it writes at the output
path.  The result triple is (returned path or error, cache state after the
call, trace of file-system operations). -/
def extract_frame (ffmpeg : CacheKey → Option (List ℕ)) (fs : CacheFS)
    (video : String) (ts : ℚ) (maxSide : ℕ) :
    Except String CacheKey × CacheFS × List FsOp :=
  let out := CacheKey.frame video ts maxSide
  if validEntry fs out then (.ok out, fs, [])
  else
    match ffmpeg out with
    | none => (.error "ffmpeg failed", fs, [.mkdirParents, .transcoderWriteFinal out])
    | some bytes =>
      let fs' := writeCache fs out bytes
      if bytes.isEmpty then
        (.error "ffmpeg produced empty frame", fs', [.mkdirParents, .transcoderWriteFinal out])
      else
        (.ok out, fs', [.mkdirParents, .transcoderWriteFinal out])

/-- The end-clamp of `FrameSampler.extract_clip`:
`if end_sec <= start_sec: end_sec = start_sec + 0.05`. -/
def effClipEnd (startSec endSec : ℚ) : ℚ :=
  if endSec ≤ startSec then startSec + 0.05 else endSec

/-- The fps-clamp of `FrameSampler.extract_clip`:
`if fps <= 1e-6: fps = 1.0`. -/
def effClipFps (fps : ℚ) : ℚ :=
  if fps ≤ 1e-6 then 1 else fps

/-- Embedding of `FrameSampler.extract_clip` (`ai_plugin_impl/sampler.py`):
clamp the parameters, compute the cache key from the clamped values, then
proceed exactly as `extract_frame` does. -/
def extract_clip (ffmpeg : CacheKey → Option (List ℕ)) (fs : CacheFS)
    (video : String) (startSec endSec fps : ℚ) (maxSide : ℕ) :
    Except String CacheKey × CacheFS × List FsOp :=
  let e := effClipEnd startSec endSec
  let f := effClipFps fps
  let out := CacheKey.clip video startSec e f maxSide
  if validEntry fs out then (.ok out, fs, [])
  else
    match ffmpeg out with
    | none => (.error "ffmpeg clip failed", fs, [.mkdirParents, .transcoderWriteFinal out])
    | some bytes =>
      let fs' := writeCache fs out bytes
      if bytes.isEmpty then
        (.error "ffmpeg produced empty clip", fs', [.mkdirParents, .transcoderWriteFinal out])
      else
        (.ok out, fs', [.mkdirParents, .transcoderWriteFinal out])

/-- Count of external transcoder invocations in a trace. -/
def transcoderCalls (ops : List FsOp) : ℕ :=
  ops.countP (fun op => match op with | .transcoderWriteFinal _ => true | _ => false)

/-- Count of atomic renames in a trace. -/
def renameCalls (ops : List FsOp) : ℕ :=
  ops.countP (fun op => match op with | .atomicRename _ => true | _ => false)

/-! ### `ai_plugin_impl/json_parse.py`: structured-output extraction -/

/-- JSON values, the results of the `json.loads` model. -/
inductive JVal where
  | obj : List (String × JVal) → JVal
  | arr : List JVal → JVal
  | str : String → JVal
  | num : ℚ → JVal
  | boolean : Bool → JVal
  | null : JVal
deriving Repr

/-- JSON whitespace (`json.loads` strict mode). -/
def isJsonWs (c : Char) : Bool :=
  c = ' ' || c = '\t' || c = '\n' || c = '\r'

/-- Whitespace for Python's `str.strip` and the regex class `\s`
(ASCII part). -/
def isPyWs (c : Char) : Bool :=
  c = ' ' || c = '\t' || c = '\n' || c = '\r' || c = '\x0b' || c = '\x0c'

/-- Embedding of Python's `str.strip()` (ASCII whitespace). -/
def pyStrip (s : String) : String :=
  String.mk (((s.data.dropWhile isPyWs).reverse.dropWhile isPyWs).reverse)

/-- Numeric value of a decimal digit list. -/
def digitsToNat (ds : List Char) : ℕ :=
  ds.foldl (fun n d => n * 10 + (d.toNat - 48)) 0

/-- Parse the digits/fraction/exponent of a JSON number after the optional
sign, returning its exact value.  Strict grammar: a leading `0` may not be
followed by further integer digits. -/
def parseNumTail (cs : List Char) : Except String (ℚ × List Char) :=
  let intDigits := cs.takeWhile Char.isDigit
  let rest0 := cs.dropWhile Char.isDigit
  if intDigits.isEmpty then .error "expecting value"
  else if intDigits.length > 1 && intDigits.headI = '0' then .error "leading zero"
  else
    let ip : ℚ := (digitsToNat intDigits : ℚ)
    let (v1, rest1) :=
      match rest0 with
      | '.' :: cs1 =>
        let fracDigits := cs1.takeWhile Char.isDigit
        (ip + (digitsToNat fracDigits : ℚ) / ((10 : ℚ) ^ fracDigits.length),
         cs1.dropWhile Char.isDigit)
      | _ => (ip, rest0)
    match rest1 with
    | '.' :: _ => .ok (v1, rest1)
    | e :: cs2 =>
      if e = 'e' ∨ e = 'E' then
        let (negExp, cs3) :=
          match cs2 with
          | '-' :: cs3 => (true, cs3)
          | '+' :: cs3 => (false, cs3)
          | _ => (false, cs2)
        let expDigits := cs3.takeWhile Char.isDigit
        if expDigits.isEmpty then .error "bad exponent"
        else
          let ex := digitsToNat expDigits
          .ok (if negExp then v1 / (10 : ℚ) ^ ex else v1 * (10 : ℚ) ^ ex,
               cs3.dropWhile Char.isDigit)
      else .ok (v1, rest1)
    | [] => .ok (v1, [])

/-- Parse one JSON number (with optional leading minus). -/
def parseNumber (cs : List Char) : Except String (ℚ × List Char) :=
  match cs with
  | '-' :: cs1 =>
    match parseNumTail cs1 with
    | .ok (v, rest) => .ok (-v, rest)
    | .error e => .error e
  | _ => parseNumTail cs

/-- Value of a hexadecimal digit, if it is one. -/
def hexVal (c : Char) : Option ℕ :=
  if '0' ≤ c ∧ c ≤ '9' then some (c.toNat - 48)
  else if 'a' ≤ c ∧ c ≤ 'f' then some (c.toNat - 87)
  else if 'A' ≤ c ∧ c ≤ 'F' then some (c.toNat - 55)
  else none

/-- Parse the body of a JSON string after the opening quote. -/
def parseStringBody (fuel : ℕ) (acc : List Char) (cs : List Char) :
    Except String (String × List Char) :=
  match fuel with
  | 0 => .error "unterminated string"
  | fuel + 1 =>
    match cs with
    | [] => .error "unterminated string"
    | c :: rest =>
      if c = '"' then .ok (String.mk acc.reverse, rest)
      else if c = '\\' then
        match rest with
        | [] => .error "bad escape"
        | e :: rest2 =>
          if e = '"' then parseStringBody fuel ('"' :: acc) rest2
          else if e = '\\' then parseStringBody fuel ('\\' :: acc) rest2
          else if e = '/' then parseStringBody fuel ('/' :: acc) rest2
          else if e = 'n' then parseStringBody fuel ('\n' :: acc) rest2
          else if e = 't' then parseStringBody fuel ('\t' :: acc) rest2
          else if e = 'r' then parseStringBody fuel ('\r' :: acc) rest2
          else if e = 'b' then parseStringBody fuel ('\x08' :: acc) rest2
          else if e = 'f' then parseStringBody fuel ('\x0c' :: acc) rest2
          else if e = 'u' then
            match rest2 with
            | d1 :: d2 :: d3 :: d4 :: rest3 =>
              match hexVal d1, hexVal d2, hexVal d3, hexVal d4 with
              | some h1, some h2, some h3, some h4 =>
                parseStringBody fuel
                  (Char.ofNat (((h1 * 16 + h2) * 16 + h3) * 16 + h4) :: acc) rest3
              | _, _, _, _ => .error "bad unicode escape"
            | _ => .error "bad unicode escape"
          else .error "invalid escape"
      else parseStringBody fuel (c :: acc) rest

/-- Match an expected literal suffix (for `true` / `false` / `null`). -/
def expectChars : List Char → List Char → Option (List Char)
  | [], cs => some cs
  | p :: ps, c :: cs => if c = p then expectChars ps cs else none
  | _ :: _, [] => none

mutual

/-- Recursive-descent model of `json.loads` (value parser).  The fuel is
bounded by the input length: every recursive step consumes at least one
character, so the bound is never hit on inputs the Python parser accepts. -/
def parseValue : ℕ → List Char → Except String (JVal × List Char)
  | 0, _ => .error "too deeply nested"
  | fuel + 1, cs =>
    let cs1 := cs.dropWhile isJsonWs
    match cs1 with
    | [] => .error "expecting value"
    | c :: rest =>
      if c = '{' then parseObjectBody fuel rest
      else if c = '[' then parseArrayBody fuel rest
      else if c = '"' then
        match parseStringBody (rest.length + 1) [] rest with
        | .ok (s, rest2) => .ok (.str s, rest2)
        | .error e => .error e
      else if c = 't' then
        match expectChars ['r', 'u', 'e'] rest with
        | some rest2 => .ok (.boolean true, rest2)
        | none => .error "expecting value"
      else if c = 'f' then
        match expectChars ['a', 'l', 's', 'e'] rest with
        | some rest2 => .ok (.boolean false, rest2)
        | none => .error "expecting value"
      else if c = 'n' then
        match expectChars ['u', 'l', 'l'] rest with
        | some rest2 => .ok (.null, rest2)
        | none => .error "expecting value"
      else
        match parseNumber (c :: rest) with
        | .ok (q, rest2) => .ok (.num q, rest2)
        | .error e => .error e

/-- Object body, after the opening brace. -/
def parseObjectBody : ℕ → List Char → Except String (JVal × List Char)
  | 0, _ => .error "too deeply nested"
  | fuel + 1, cs =>
    let cs1 := cs.dropWhile isJsonWs
    match cs1 with
    | '}' :: rest => .ok (.obj [], rest)
    | _ => parseMembers fuel cs1 []

/-- Members of an object: `"key": value` pairs separated by commas. -/
def parseMembers : ℕ → List Char → List (String × JVal) →
    Except String (JVal × List Char)
  | 0, _, _ => .error "too deeply nested"
  | fuel + 1, cs, acc =>
    match cs.dropWhile isJsonWs with
    | '"' :: rest =>
      match parseStringBody (rest.length + 1) [] rest with
      | .error e => .error e
      | .ok (key, rest2) =>
        match rest2.dropWhile isJsonWs with
        | ':' :: rest3 =>
          match parseValue fuel rest3 with
          | .error e => .error e
          | .ok (v, rest4) =>
            match rest4.dropWhile isJsonWs with
            | ',' :: rest5 => parseMembers fuel rest5 (acc ++ [(key, v)])
            | '}' :: rest5 => .ok (.obj (acc ++ [(key, v)]), rest5)
            | _ => .error "expecting comma"
        | _ => .error "expecting colon"
    | _ => .error "expecting property name"

/-- Array body, after the opening bracket. -/
def parseArrayBody : ℕ → List Char → Except String (JVal × List Char)
  | 0, _ => .error "too deeply nested"
  | fuel + 1, cs =>
    let cs1 := cs.dropWhile isJsonWs
    match cs1 with
    | ']' :: rest => .ok (.arr [], rest)
    | _ => parseElems fuel cs1 []

/-- Elements of an array, separated by commas. -/
def parseElems : ℕ → List Char → List JVal → Except String (JVal × List Char)
  | 0, _, _ => .error "too deeply nested"
  | fuel + 1, cs, acc =>
    match parseValue fuel cs with
    | .error e => .error e
    | .ok (v, rest) =>
      match rest.dropWhile isJsonWs with
      | ',' :: rest2 => parseElems fuel rest2 (acc ++ [v])
      | ']' :: rest2 => .ok (.arr (acc ++ [v]), rest2)
      | _ => .error "expecting comma"

end

/-- Model of `json.loads`: parse one value and require only whitespace
after it. -/
def jsonLoads (s : String) : Except String JVal :=
  match parseValue (s.length + 1) s.data with
  | .error e => .error e
  | .ok (v, rest) =>
    if (rest.dropWhile isJsonWs).isEmpty then .ok v else .error "extra data"

/-- The backtick character, written by code so the source file contains no
backtick token. -/
def btick : Char := Char.ofNat 96

/-- Three backticks at the head of the character list. -/
def startsTicks (cs : List Char) : Bool :=
  match cs with
  | a :: b :: c :: _ => a = btick && b = btick && c = btick
  | _ => false

/-- Whether the closing fence follows, after optional `\s*`. -/
def fenceFollows (cs : List Char) : Bool :=
  startsTicks (cs.dropWhile isPyWs)

/-- Scan for the closing `}` of the lazily-captured region: the first `}`
after which (modulo whitespace) the closing fence appears.  `revAcc` is the
captured region so far, reversed. -/
def fenceCloseAux : ℕ → List Char → List Char → Option (List Char)
  | 0, _, _ => none
  | _ + 1, _, [] => none
  | fuel + 1, revAcc, c :: rest =>
    if c = '}' && fenceFollows rest then some (('}' :: revAcc).reverse)
    else fenceCloseAux fuel (c :: revAcc) rest

/-- Case-insensitive character equality (the regex is compiled with
`re.IGNORECASE`). -/
def lowerEq (a b : Char) : Bool := a.toLower == b.toLower

/-- Try to match the fenced-block regex
```` ```(?:json)?\s*(\{[\s\S]*?\})\s*``` ```` at this position, returning
the captured group. -/
def fenceAt (cs : List Char) : Option String :=
  match cs with
  | t1 :: t2 :: t3 :: rest =>
    if t1 = btick && t2 = btick && t3 = btick then
      let afterTag :=
        match rest with
        | j :: s :: o :: n :: rest2 =>
          if lowerEq j 'j' && lowerEq s 's' && lowerEq o 'o' && lowerEq n 'n' then rest2
          else rest
        | _ => rest
      match afterTag.dropWhile isPyWs with
      | c :: rest3 =>
        if c = '{' then (fenceCloseAux (rest3.length + 1) ['{'] rest3).map String.mk
        else none
      | [] => none
    else none
  | _ => none

/-- Leftmost search for the fenced block (`_JSON_BLOCK_RE.search`). -/
def jsonBlockSearch : List Char → Option String
  | [] => none
  | c :: rest =>
    match fenceAt (c :: rest) with
    | some cap => some cap
    | none => jsonBlockSearch rest

/-- Failure conditions of `extract_json_object`: the two `ValueError`s the
function raises itself, and a `json.JSONDecodeError` escaping from an
unguarded `json.loads` call in strategy 2 or 3. -/
inductive ExtractErr where
  | emptyOutput
  | couldNotParse
  | jsonDecode (msg : String)
deriving DecidableEq, Repr

/-- Strategy 3 of `extract_json_object`: substring from the first `{` to
the last `}` (requiring the latter to come later), parsed by the unguarded
`json.loads`. -/
def tier3Span (cs : List Char) : Option (List Char) :=
  match cs.findIdx? (fun c => c = '{') with
  | none => none
  | some i =>
    match cs.reverse.findIdx? (fun c => c = '}') with
    | none => none
    | some jr =>
      let j := cs.length - 1 - jr
      if i < j then some ((cs.drop i).take (j - i + 1)) else none

/-- Result of strategy 3 followed by the final `raise`. -/
def tier3Result (t : String) : Except ExtractErr (List (String × JVal)) :=
  match tier3Span t.data with
  | some cand =>
    match jsonLoads (String.mk cand) with
    | .ok (.obj d) => .ok d
    | .ok _ => .error .couldNotParse
    | .error e => .error (.jsonDecode e)
  | none => .error .couldNotParse

/-- Body of `extract_json_object` after the initial `strip`.  Strategy 1
is guarded by `try/except`; strategies 2 and 3 call `json.loads`
unguarded, so a parse failure there escapes as a `jsonDecode` error. -/
def extractCore (t : String) : Except ExtractErr (List (String × JVal)) :=
  if t = "" then .error .emptyOutput
  else
    match jsonLoads t with
    | .ok (.obj d) => .ok d
    | _ =>
      match jsonBlockSearch t.data with
      | some cand =>
        match jsonLoads cand with
        | .ok (.obj d) => .ok d
        | .ok _ => tier3Result t
        | .error e => .error (.jsonDecode e)
      | none => tier3Result t

/-- Embedding of `extract_json_object` (`ai_plugin_impl/json_parse.py`):
`text = (text or "").strip()` followed by the three-strategy body. -/
def extract_json_object (text : String) : Except ExtractErr (List (String × JVal)) :=
  extractCore (pyStrip text)

/-- Whether a `json.loads` result is a well-formed mapping (`isinstance
(obj, dict)`). -/
def isObjOk (r : Except String JVal) : Bool :=
  match r with
  | .ok (.obj _) => true
  | _ => false

/-! ### `app.py` / `ai_plugin_impl/adapter.py`: episode timing -/

/-- One row of the episode metadata table.  `from_ts`/`to_ts` are the
values of the `videos/{video_key}/from_timestamp` / `to_timestamp` cells,
with `none` for a NaN/None cell. -/
structure EpRow where
  episode_index : ℤ
  length : ℕ
  from_ts : Option ℚ
  to_ts : Option ℚ
deriving DecidableEq, Repr

/-- The episode metadata table.  `hasTsCols` models the dataset-wide check
that both timestamp columns exist in the dataframe. -/
structure EpisodesTable where
  rows : List EpRow
  hasTsCols : Bool
deriving Repr

/-- `duration = length / fps if fps else 0.0`. -/
def episodeDuration (length : ℕ) (fps : ℚ) : ℚ :=
  if fps = 0 then 0 else (length : ℚ) / fps

/-- The `(video_start_time, video_end_time)` entry
`DataManager._calculate_video_offsets` stores for one row: the two
timestamp cells verbatim when the columns exist and both cells are
non-null, and `(0, duration)` otherwise. -/
def offsetsForRow (hasCols : Bool) (fps : ℚ) (r : EpRow) : ℚ × ℚ :=
  let dur := episodeDuration r.length fps
  if hasCols then
    match r.from_ts, r.to_ts with
    | some f, some t => (f, t)
    | _, _ => (0, dur)
  else (0, dur)

/-- Embedding of `DataManager._calculate_video_offsets` (`app.py`): the
per-episode dict `result[ep_idx] = {video_start_time, video_end_time}`
built over all rows, as an association list in row order. -/
def calculate_video_offsets (tbl : EpisodesTable) (fps : ℚ) : List (ℤ × ℚ × ℚ) :=
  tbl.rows.map (fun r => (r.episode_index, offsetsForRow tbl.hasTsCols fps r))

/-- Resolved timing of one episode (`ai_plugin_impl/adapter.py`,
`EpisodeTiming`). -/
structure EpisodeTiming where
  fps : ℚ
  length : ℕ
  duration : ℚ
  video_start_time : ℚ
  video_end_time : ℚ
deriving DecidableEq, Repr

/-- The slice of `DataManager` state that `get_episode_timing` reads.
`info` is `none` when no dataset is loaded, and otherwise carries the
optional `fps` entry of `info.json` (defaulted to 30 by the source). -/
structure Manager where
  episodes : Option EpisodesTable
  info : Option (Option ℚ)
  video_key : Option String

/-- Embedding of `get_episode_timing` (`ai_plugin_impl/adapter.py`): fail
when the dataset is not loaded or the episode is absent; default the
timing to `(0, duration)`; when a video key is selected, override it with
the entry of `_calculate_video_offsets` for this episode. -/
def get_episode_timing (m : Manager) (episode_index : ℤ) : Except String EpisodeTiming :=
  match m.episodes, m.info with
  | some tbl, some fpsOpt =>
    let fps := fpsOpt.getD 30
    match tbl.rows.find? (fun r => r.episode_index == episode_index) with
    | none => .error "episode not found"
    | some row =>
      let duration := episodeDuration row.length fps
      let vt : ℚ × ℚ :=
        match m.video_key with
        | none => (0, duration)
        | some _ =>
          match (calculate_video_offsets tbl fps).lookup row.episode_index with
          | some off => off
          | none => (0, duration)
      .ok ⟨fps, row.length, duration, vt.1, vt.2⟩
  | _, _ => .error "dataset not loaded"

/-! ### Helper lemmas -/

theorem findSegAux_eq_find? (ts : ℚ) (total : ℕ) :
    ∀ (segs : List Seg) (i : ℕ),
      findSegAux total i segs ts =
        ((segs.enumFrom i).find?
          (fun p => segMatches p.2 (p.1 == total - 1) ts)).map Prod.snd := by
  intro segs
  induction segs with
  | nil => intro i; simp [findSegAux]
  | cons s rest ih =>
    intro i
    rw [List.enumFrom_cons]
    cases h : segMatches s (i == total - 1) ts with
    | true => simp [findSegAux, h, List.find?]
    | false => simp [findSegAux, h, List.find?, ih (i + 1)]

theorem lookup_label_enumFrom :
    ∀ (l : List Seg) (k j : ℕ) (x : Seg),
      (l.map Seg.label).Nodup → l[j]? = some x →
      List.lookup x.label ((l.enumFrom k).map (fun p => (p.2.label, (p.1 : ℤ)))) =
        some ((k + j : ℕ) : ℤ) := by
  intro l
  induction l with
  | nil => intro k j x _ hj; simp at hj
  | cons a t ih =>
    intro k j x hnd hj
    rw [List.enumFrom_cons]
    rcases j with _ | j
    · rw [List.getElem?_cons_zero] at hj
      injection hj with hx
      subst hx
      simp [List.lookup]
    · rw [List.getElem?_cons_succ] at hj
      have hmem : x.label ∈ t.map Seg.label :=
        List.mem_map_of_mem Seg.label (List.getElem?_mem hj)
      have hne : ¬ (x.label == a.label) = true := by
        intro hb
        have : x.label = a.label := by simpa using hb
        rw [List.map_cons, List.nodup_cons] at hnd
        exact hnd.1 (this ▸ hmem)
      have := ih (k + 1) j x (by
        rw [List.map_cons, List.nodup_cons] at hnd; exact hnd.2) hj
      simp only [List.map_cons, List.lookup, hne, Bool.false_eq_true, if_false]
      rw [this]
      congr 1
      omega

theorem lookup_eq_none_of_not_mem_fst {β : Type} (k : String) :
    ∀ l : List (String × β), k ∉ l.map Prod.fst → List.lookup k l = none := by
  intro l
  induction l with
  | nil => intro _; rfl
  | cons p t ih =>
    intro h
    rw [List.map_cons, List.mem_cons] at h
    push_neg at h
    have hne : ¬ (k == p.1) = true := by
      intro hb; exact h.1 (by simpa using hb)
    simp only [List.lookup, hne, Bool.false_eq_true, if_false]
    exact ih h.2

/-! ### Claim C1 -/

unseal List.merge List.mergeSort Nat.gcd Rat.inv Rat.mul Rat.add Rat.sub Rat.ofScientific in
/-- C1: interval assignment sorts the segments by start ascending and gives
each timestamp the (mapping) index of the first sorted segment with
`start <= ts < end` — or `ts <= end` when that segment is last in sorted
order — and `-1` when no segment matches; on segments
`[(0,1,L0),(1,2,L1)]` and timestamps `[0, 0.999, 1.0, 1.999, 2.0]` the
assigned indices are `[0,0,1,1,1]`. -/
theorem C1_interval_assignment :
    (∀ (tss : List ℚ) (segs : List Seg),
        ((sortSegs segs).map Seg.label).Nodup →
        assign_indices_by_segments tss segs (positionalMap segs) =
          tss.map (fun ts =>
            match firstMatchIdx (sortSegs segs) ts with
            | none => (-1 : ℤ)
            | some j => (j : ℤ)))
    ∧ (∀ segs : List Seg,
        (sortSegs segs).Pairwise (fun a b => a.start ≤ b.start)
        ∧ (sortSegs segs).Perm segs)
    ∧ assign_indices_by_segments [0, 999/1000, 1, 1999/1000, 2]
        [⟨0, 1, "L0"⟩, ⟨1, 2, "L1"⟩] [("L0", 0), ("L1", 1)] = [0, 0, 1, 1, 1] := by
  refine ⟨?_, ?_, by decide⟩
  · intro tss segs hnd
    by_cases hseg : segs = []
    · subst hseg
      simp [assign_indices_by_segments, firstMatchIdx, firstMatch, sortSegs,
        List.mergeSort_nil, List.find?]
    · simp only [assign_indices_by_segments, if_neg hseg]
      refine List.map_congr_left ?_
      intro ts _
      rw [findSegAux_eq_find? ts (sortSegs segs).length (sortSegs segs) 0]
      have henum : (sortSegs segs).enumFrom 0 = (sortSegs segs).enum := rfl
      rw [henum]
      cases hf : (sortSegs segs).enum.find?
          (fun p => segMatches p.2 (p.1 == (sortSegs segs).length - 1) ts) with
      | none => simp [firstMatchIdx, firstMatch, hf]
      | some pr =>
        obtain ⟨j, s⟩ := pr
        have hget : (sortSegs segs)[j]? = some s := by
          have hmem := List.mem_of_find?_eq_some hf
          exact List.mem_enum_iff_getElem?.mp hmem
        have hlk := lookup_label_enumFrom (sortSegs segs) 0 j s hnd hget
        simp only [Nat.zero_add] at hlk
        rw [henum] at hlk
        simp [firstMatchIdx, firstMatch, hf, positionalMap, hlk]
  · intro segs
    constructor
    · have htr : ∀ a b c : Seg, (decide (a.start ≤ b.start)) = true →
          (decide (b.start ≤ c.start)) = true → (decide (a.start ≤ c.start)) = true := by
        intro a b c hab hbc
        simp only [decide_eq_true_eq] at hab hbc ⊢
        exact le_trans hab hbc
      have hto : ∀ a b : Seg,
          ((decide (a.start ≤ b.start)) || (decide (b.start ≤ a.start))) = true := by
        intro a b
        simp only [Bool.or_eq_true, decide_eq_true_eq]
        exact le_total a.start b.start
      have h := List.sorted_mergeSort htr hto segs
      exact h.imp (fun hab => by simpa using hab)
    · exact List.mergeSort_perm segs _

unseal List.merge List.mergeSort Nat.gcd Rat.inv Rat.mul Rat.add Rat.sub Rat.ofScientific in
/-- Witness for C1: the general characterization applied to the concrete
segments `[(0,1,L0),(1,2,L1)]` and timestamps `[0, 2]`. -/
theorem C1_interval_assignment_witness :
    ((sortSegs [⟨0, 1, "L0"⟩, ⟨1, 2, "L1"⟩]).map Seg.label).Nodup
    ∧ assign_indices_by_segments [0, 2] [⟨0, 1, "L0"⟩, ⟨1, 2, "L1"⟩]
        (positionalMap [⟨0, 1, "L0"⟩, ⟨1, 2, "L1"⟩]) =
      [0, 2].map (fun ts =>
        match firstMatchIdx (sortSegs [⟨0, 1, "L0"⟩, ⟨1, 2, "L1"⟩]) ts with
        | none => (-1 : ℤ)
        | some j => (j : ℤ)) :=
  ⟨by decide, C1_interval_assignment.1 [0, 2] [⟨0, 1, "L0"⟩, ⟨1, 2, "L1"⟩] (by decide)⟩

/-! ### Claim C10 -/

unseal List.merge List.mergeSort Nat.gcd Rat.inv Rat.mul Rat.add Rat.sub Rat.ofScientific in
/-- C10: when the first matching sorted segment carries a label absent from
the mapping, the timestamp is assigned `-1` and the scan stops, so a later
overlapping mapped segment is never consulted; and the subtask mapping
construction excludes the empty label. -/
theorem C10_unmapped_first_match_gets_minus_one :
    (∀ (ts : ℚ) (segs : List Seg) (mapping : List (String × ℤ)) (j : ℕ) (s : Seg),
        segs ≠ [] →
        firstMatch (sortSegs segs) ts = some (j, s) →
        mapping.lookup s.label = none →
        assign_indices_by_segments [ts] segs mapping = [-1])
    ∧ assign_indices_by_segments [3/2] [⟨0, 2, ""⟩, ⟨1, 3, "a"⟩] [("a", 5)] = [-1]
    ∧ (∀ anns : AnnSet, List.lookup "" (build_subtask_map anns) = none) := by
  refine ⟨?_, by decide, ?_⟩
  · intro ts segs mapping j s hne hf hlk
    simp only [assign_indices_by_segments, if_neg hne]
    rw [List.map_cons, List.map_nil]
    rw [findSegAux_eq_find? ts (sortSegs segs).length (sortSegs segs) 0]
    have henum : (sortSegs segs).enumFrom 0 = (sortSegs segs).enum := rfl
    rw [henum]
    unfold firstMatch at hf
    rw [hf]
    simp [hlk]
  · intro anns
    apply lookup_eq_none_of_not_mem_fst
    intro hmem
    simp only [build_subtask_map, List.map_map] at hmem
    have hcomp :
        (Prod.fst ∘ fun p : ℕ × String => (p.2, (p.1 : ℤ))) = Prod.snd := by
      funext p; rfl
    rw [hcomp, List.enum_map_snd, List.mem_mergeSort, List.mem_dedup,
      List.mem_filter] at hmem
    simp at hmem

unseal List.merge List.mergeSort Nat.gcd Rat.inv Rat.mul Rat.add Rat.sub Rat.ofScientific in
/-- Witness for C10: segments `[(0,2,""),(1,3,"a")]` at timestamp `1.5`:
both segments contain the timestamp, the first sorted match has the empty
label, which the mapping does not contain, and the assigned index is `-1`. -/
theorem C10_unmapped_first_match_gets_minus_one_witness :
    firstMatch (sortSegs [⟨0, 2, ""⟩, ⟨1, 3, "a"⟩]) (3/2) = some (0, ⟨0, 2, ""⟩)
    ∧ List.lookup "" [("a", (5 : ℤ))] = none
    ∧ assign_indices_by_segments [3/2] [⟨0, 2, ""⟩, ⟨1, 3, "a"⟩] [("a", 5)] = [-1] :=
  ⟨by decide, by decide,
    C10_unmapped_first_match_gets_minus_one.1 (3/2) [⟨0, 2, ""⟩, ⟨1, 3, "a"⟩]
      [("a", 5)] 0 ⟨0, 2, ""⟩ (by decide) (by decide) (by decide)⟩

/-! ### Claim C2 -/

/-- Counterexample for C2: a subtask generation call with `mode="replace"`
and `resume_from_last=true` replaces the stored list, so the prior list is
not a prefix of the stored result. -/
theorem C2_counterexample_subtask_replace_shrinks :
    generate_subtasks_persist "replace" true [⟨0, 1, "x"⟩] [⟨5, 6, "y"⟩] = [⟨5, 6, "y"⟩]
    ∧ ¬ [(⟨0, 1, "x"⟩ : Seg)] <+: [(⟨5, 6, "y"⟩ : Seg)] := by
  constructor
  · rfl
  · decide

/-- C2 amended: for QA generation, `resume_from_last=true` forces the
effective mode to append, so the stored list always keeps the prior list as
a prefix; for subtask generation, `mode="replace"` replaces the stored list
regardless of `resume_from_last`, discarding the prior list. -/
theorem C2_resume_effective_mode :
    (∀ (mode : String) (prior segments : List HSeg),
        generate_fake_vqa_persist mode true prior segments = prior ++ segments)
    ∧ (∀ (resume : Bool) (prior segments : List Seg),
        generate_subtasks_persist "replace" resume prior segments = segments) := by
  exact ⟨fun _ _ _ => rfl, fun _ _ _ => rfl⟩

/-! ### Claim C7 -/

unseal List.merge List.mergeSort Nat.gcd Rat.inv Rat.mul Rat.add Rat.sub Rat.ofScientific in
/-- Counterexample for C7: merging `[(0,5,"a"),(1,2,"a")]` — a contained
same-label segment — extends the end to the maximum `5`, not to the later
segment's end `2` as the claim states. -/
theorem C7_counterexample_contained_segment :
    merge_adjacent_subtasks [⟨0, 5, "a"⟩, ⟨1, 2, "a"⟩] = [⟨0, 5, "a"⟩]
    ∧ merge_adjacent_spec [⟨0, 5, "a"⟩, ⟨1, 2, "a"⟩] = [⟨0, 2, "a"⟩]
    ∧ merge_adjacent_subtasks [⟨0, 5, "a"⟩, ⟨1, 2, "a"⟩] ≠
        merge_adjacent_spec [⟨0, 5, "a"⟩, ⟨1, 2, "a"⟩] :=
  ⟨by decide, by decide, by decide⟩

theorem mergeLoop_eq_foldl :
    ∀ (rest acc : List Seg), mergeLoop acc rest = rest.foldl mergeStep acc.reverse := by
  intro rest
  induction rest with
  | nil => intro acc; rfl
  | cons s rest' ih =>
    intro acc
    cases acc with
    | nil =>
      rw [List.foldl_cons]
      simpa using ih [s]
    | cons prev accTail =>
      by_cases h : prev.label = s.label ∧ prev.stop ≥ s.start
      · have hstep : mergeStep ((prev :: accTail).reverse) s =
            accTail.reverse ++ [{ prev with stop := max prev.stop s.stop }] := by
          rw [List.reverse_cons]
          simp only [mergeStep, List.getLast?_concat]
          rw [if_pos h, List.dropLast_concat]
        rw [List.foldl_cons, hstep]
        have hrec := ih ({ prev with stop := max prev.stop s.stop } :: accTail)
        rw [List.reverse_cons] at hrec
        calc mergeLoop (prev :: accTail) (s :: rest')
            = mergeLoop ({ prev with stop := max prev.stop s.stop } :: accTail) rest' := by
              simp only [mergeLoop]
              rw [if_pos h]
          _ = _ := hrec
      · have hstep : mergeStep ((prev :: accTail).reverse) s =
            (prev :: accTail).reverse ++ [s] := by
          rw [List.reverse_cons]
          simp only [mergeStep, List.getLast?_concat]
          rw [if_neg h]
        rw [List.foldl_cons, hstep]
        have hrec := ih (s :: prev :: accTail)
        rw [List.reverse_cons] at hrec
        calc mergeLoop (prev :: accTail) (s :: rest')
            = mergeLoop (s :: prev :: accTail) rest' := by
              simp only [mergeLoop]
              rw [if_neg h]
          _ = _ := hrec

unseal List.merge List.mergeSort Nat.gcd Rat.inv Rat.mul Rat.add Rat.sub Rat.ofScientific in
/-- C7 amended: on every segment list, the merge is the left fold that
compares each segment with the last kept output segment — which may itself
already be the result of earlier merges — merging when the labels are
identical and that segment's (possibly extended) end is `>= start`, with
the merged end the maximum of the two ends, appending the segment
unchanged otherwise, and finally rounding every resulting start and end to
millisecond precision; `[(0,2,"a"),(2,4,"a"),(4,5,"b")]` merges to
`[(0,4,"a"),(4,5,"b")]`, and cascading merges `[(0,5,"a"),(1,2,"a"),(4,6,"a")]`
to `[(0,6,"a")]`. -/
theorem C7_merge_adjacent_max_end :
    (∀ segments : List Seg,
        merge_adjacent_subtasks segments =
          (segments.foldl mergeStep []).map
            (fun s => { s with start := round3 s.start, stop := round3 s.stop }))
    ∧ (∀ (out : List Seg) (prev s : Seg),
        prev.label = s.label → prev.stop ≥ s.start →
        mergeStep (out ++ [prev]) s = out ++ [{ prev with stop := max prev.stop s.stop }])
    ∧ (∀ (out : List Seg) (prev s : Seg),
        prev.label ≠ s.label ∨ prev.stop < s.start →
        mergeStep (out ++ [prev]) s = (out ++ [prev]) ++ [s])
    ∧ merge_adjacent_subtasks [⟨0, 2, "a"⟩, ⟨2, 4, "a"⟩, ⟨4, 5, "b"⟩] =
        [⟨0, 4, "a"⟩, ⟨4, 5, "b"⟩]
    ∧ merge_adjacent_subtasks [⟨0, 5, "a"⟩, ⟨1, 2, "a"⟩, ⟨4, 6, "a"⟩] = [⟨0, 6, "a"⟩] := by
  refine ⟨?_, ?_, ?_, by decide, by decide⟩
  · intro segments
    simp only [merge_adjacent_subtasks]
    rw [mergeLoop_eq_foldl segments []]
    rfl
  · intro out prev s h1 h2
    simp only [mergeStep, List.getLast?_concat]
    rw [if_pos ⟨h1, h2⟩, List.dropLast_concat]
  · intro out prev s h
    have hcond : ¬ (prev.label = s.label ∧ prev.stop ≥ s.start) := by
      rcases h with h | h
      · exact fun hc => h hc.1
      · exact fun hc => absurd hc.2 (not_le.mpr h)
    simp only [mergeStep, List.getLast?_concat]
    rw [if_neg hcond]

unseal List.merge List.mergeSort Nat.gcd Rat.inv Rat.mul Rat.add Rat.sub Rat.ofScientific in
/-- Witness for C7: the merge step applied behind an untouched earlier
kept segment `(9,10,"z")`, once for a mergeable pair and once for a
non-mergeable pair. -/
theorem C7_merge_adjacent_max_end_witness :
    (Seg.mk 0 2 "a").label = (Seg.mk 2 4 "a").label
    ∧ (Seg.mk 0 2 "a").stop ≥ (Seg.mk 2 4 "a").start
    ∧ mergeStep ([⟨9, 10, "z"⟩] ++ [⟨0, 2, "a"⟩]) ⟨2, 4, "a"⟩ =
        [⟨9, 10, "z"⟩] ++
          [{ Seg.mk 0 2 "a" with
              stop := max (Seg.mk 0 2 "a").stop (Seg.mk 2 4 "a").stop }]
    ∧ ((Seg.mk 0 2 "a").label ≠ (Seg.mk 4 5 "b").label
        ∨ (Seg.mk 0 2 "a").stop < (Seg.mk 4 5 "b").start)
    ∧ mergeStep ([⟨9, 10, "z"⟩] ++ [⟨0, 2, "a"⟩]) ⟨4, 5, "b"⟩ =
        ([⟨9, 10, "z"⟩] ++ [⟨0, 2, "a"⟩]) ++ [⟨4, 5, "b"⟩] :=
  ⟨rfl, by decide,
   C7_merge_adjacent_max_end.2.1 [⟨9, 10, "z"⟩] ⟨0, 2, "a"⟩ ⟨2, 4, "a"⟩ rfl (by decide),
   Or.inl (by decide),
   C7_merge_adjacent_max_end.2.2.1 [⟨9, 10, "z"⟩] ⟨0, 2, "a"⟩ ⟨4, 5, "b"⟩
     (Or.inl (by decide))⟩

/-! ### Claim C8 -/

unseal List.merge List.mergeSort Nat.gcd Rat.inv Rat.mul Rat.add Rat.sub Rat.ofScientific in
/-- Counterexample for C8: for `start = 0`, `end = 0.01` the clip operation
leaves the end at `0.01`, which is less than `start + 0.05`, so the end is
not clamped to be at least `start + 0.05`. -/
theorem C8_counterexample_small_positive_span :
    effClipEnd 0 (1/100) = 1/100 ∧ ¬ ((0 : ℚ) + 0.05 ≤ effClipEnd 0 (1/100)) := by
  exact ⟨by decide, by decide⟩

/-- C8 amended: the clip operation clamps the end to `start + 0.05` exactly
when `end <= start` (leaving any positive span as it is), sets the fps to
`1.0` exactly when `fps <= 1e-6` (in particular whenever it is
non-positive), and computes the cache key from the clamped values. -/
theorem C8_clip_clamping :
    (∀ s e : ℚ, e ≤ s → effClipEnd s e = s + 0.05)
    ∧ (∀ s e : ℚ, s < e → effClipEnd s e = e)
    ∧ (∀ f : ℚ, f ≤ 1e-6 → effClipFps f = 1)
    ∧ (∀ f : ℚ, 1e-6 < f → effClipFps f = f)
    ∧ (∀ f : ℚ, f ≤ 0 → effClipFps f = 1)
    ∧ (∀ (ffmpeg : CacheKey → Option (List ℕ)) (fs : CacheFS) (video : String)
        (s e f : ℚ) (maxSide : ℕ) (k : CacheKey),
        (extract_clip ffmpeg fs video s e f maxSide).1 = .ok k →
        k = CacheKey.clip video s (effClipEnd s e) (effClipFps f) maxSide) := by
  refine ⟨?_, ?_, ?_, ?_, ?_, ?_⟩
  · intro s e h; simp [effClipEnd, h]
  · intro s e h; simp [effClipEnd, not_le.mpr h]
  · intro f h; simp [effClipFps, h]
  · intro f h; simp [effClipFps, not_le.mpr h]
  · intro f h
    have : f ≤ 1e-6 := le_trans h (by norm_num)
    simp [effClipFps, this]
  · intro ffmpeg fs video s e f maxSide k h
    simp only [extract_clip] at h
    split at h
    · simp at h
      exact h.symm
    · split at h
      · simp at h
      · split at h
        · simp at h
        · simp at h
          exact h.symm

unseal List.merge List.mergeSort Nat.gcd Rat.inv Rat.mul Rat.add Rat.sub Rat.ofScientific in
/-- Witness for C8: the degenerate span `(1, 0)` is clamped to `1.05`, a
zero fps is clamped to `1`, and a concrete cache-miss clip call returns the
key computed from the clamped values. -/
theorem C8_clip_clamping_witness :
    ((0 : ℚ) ≤ 1) ∧ effClipEnd 1 0 = 1 + 0.05
    ∧ ((0 : ℚ) ≤ 1e-6) ∧ effClipFps 0 = 1
    ∧ CacheKey.clip "v" 0 0.05 1 5 =
        CacheKey.clip "v" 0 (effClipEnd 0 0) (effClipFps 0) 5 :=
  ⟨by decide, C8_clip_clamping.1 1 0 (by decide),
   by decide, C8_clip_clamping.2.2.2.2.1 0 (by decide),
   C8_clip_clamping.2.2.2.2.2 (fun _ => some [7]) [] "v" 0 0 0 5
     (CacheKey.clip "v" 0 0.05 1 5) rfl⟩

/-! ### Claim C6 -/

theorem readCache_writeCache (fs : CacheFS) (k : CacheKey) (c : List ℕ) :
    readCache (writeCache fs k c) k = some c := by
  simp [readCache, writeCache, List.lookup]

/-- C6: calling the cache's frame (or clip) operation twice with identical
arguments after a successful first call returns the same cache key, leaves
the cache state unchanged (hence the entry's bytes are identical), performs
no transcoder invocation in the second call, and invokes the transcoder at
most once across the two calls. -/
theorem C6_cache_idempotent :
    (∀ (ffmpeg : CacheKey → Option (List ℕ)) (fs : CacheFS) (video : String)
        (ts : ℚ) (maxSide : ℕ) (p : CacheKey)
        (r1 r2 : Except String CacheKey) (st1 st2 : CacheFS) (ops1 ops2 : List FsOp),
        (r1, st1, ops1) = extract_frame ffmpeg fs video ts maxSide →
        (r2, st2, ops2) = extract_frame ffmpeg st1 video ts maxSide →
        r1 = .ok p →
        r2 = .ok p ∧ st2 = st1 ∧ transcoderCalls ops2 = 0
          ∧ transcoderCalls ops1 + transcoderCalls ops2 ≤ 1)
    ∧ (∀ (ffmpeg : CacheKey → Option (List ℕ)) (fs : CacheFS) (video : String)
        (s e f : ℚ) (maxSide : ℕ) (p : CacheKey)
        (r1 r2 : Except String CacheKey) (st1 st2 : CacheFS) (ops1 ops2 : List FsOp),
        (r1, st1, ops1) = extract_clip ffmpeg fs video s e f maxSide →
        (r2, st2, ops2) = extract_clip ffmpeg st1 video s e f maxSide →
        r1 = .ok p →
        r2 = .ok p ∧ st2 = st1 ∧ transcoderCalls ops2 = 0
          ∧ transcoderCalls ops1 + transcoderCalls ops2 ≤ 1) := by
  constructor
  · intro ffmpeg fs video ts maxSide p r1 r2 st1 st2 ops1 ops2 h1 h2 hok
    simp only [extract_frame] at h1
    split at h1
    · rename_i hv
      rw [Prod.mk.injEq, Prod.mk.injEq] at h1
      obtain ⟨e1, e2, e3⟩ := h1
      subst e1; subst e2; subst e3
      simp only [extract_frame] at h2
      rw [if_pos hv] at h2
      rw [Prod.mk.injEq, Prod.mk.injEq] at h2
      obtain ⟨f1, f2, f3⟩ := h2
      subst f1; subst f2; subst f3
      exact ⟨hok, rfl, rfl, by simp [transcoderCalls]⟩
    · rename_i hv
      split at h1
      · rw [Prod.mk.injEq, Prod.mk.injEq] at h1
        obtain ⟨e1, _, _⟩ := h1
        subst e1
        exact absurd hok (by simp)
      · rename_i bytes _
        split at h1
        · rw [Prod.mk.injEq, Prod.mk.injEq] at h1
          obtain ⟨e1, _, _⟩ := h1
          subst e1
          exact absurd hok (by simp)
        · rename_i hb
          rw [Prod.mk.injEq, Prod.mk.injEq] at h1
          obtain ⟨e1, e2, e3⟩ := h1
          subst e1; subst e2; subst e3
          have hval : validEntry (writeCache fs (CacheKey.frame video ts maxSide) bytes)
              (CacheKey.frame video ts maxSide) = true := by
            simp only [validEntry, readCache_writeCache]
            simpa using hb
          simp only [extract_frame] at h2
          rw [if_pos hval] at h2
          rw [Prod.mk.injEq, Prod.mk.injEq] at h2
          obtain ⟨f1, f2, f3⟩ := h2
          subst f1; subst f2; subst f3
          exact ⟨hok, rfl, rfl, by simp [transcoderCalls]⟩
  · intro ffmpeg fs video s e f maxSide p r1 r2 st1 st2 ops1 ops2 h1 h2 hok
    simp only [extract_clip] at h1
    split at h1
    · rename_i hv
      rw [Prod.mk.injEq, Prod.mk.injEq] at h1
      obtain ⟨e1, e2, e3⟩ := h1
      subst e1; subst e2; subst e3
      simp only [extract_clip] at h2
      rw [if_pos hv] at h2
      rw [Prod.mk.injEq, Prod.mk.injEq] at h2
      obtain ⟨f1, f2, f3⟩ := h2
      subst f1; subst f2; subst f3
      exact ⟨hok, rfl, rfl, by simp [transcoderCalls]⟩
    · rename_i hv
      split at h1
      · rw [Prod.mk.injEq, Prod.mk.injEq] at h1
        obtain ⟨e1, _, _⟩ := h1
        subst e1
        exact absurd hok (by simp)
      · rename_i bytes _
        split at h1
        · rw [Prod.mk.injEq, Prod.mk.injEq] at h1
          obtain ⟨e1, _, _⟩ := h1
          subst e1
          exact absurd hok (by simp)
        · rename_i hb
          rw [Prod.mk.injEq, Prod.mk.injEq] at h1
          obtain ⟨e1, e2, e3⟩ := h1
          subst e1; subst e2; subst e3
          have hval : validEntry
              (writeCache fs (CacheKey.clip video s (effClipEnd s e) (effClipFps f) maxSide) bytes)
              (CacheKey.clip video s (effClipEnd s e) (effClipFps f) maxSide) = true := by
            simp only [validEntry, readCache_writeCache]
            simpa using hb
          simp only [extract_clip] at h2
          rw [if_pos hval] at h2
          rw [Prod.mk.injEq, Prod.mk.injEq] at h2
          obtain ⟨f1, f2, f3⟩ := h2
          subst f1; subst f2; subst f3
          exact ⟨hok, rfl, rfl, by simp [transcoderCalls]⟩

unseal List.merge List.mergeSort Nat.gcd Rat.inv Rat.mul Rat.add Rat.sub Rat.ofScientific in
/-- Witness for C6: a concrete cache-miss frame call followed by a repeat
call, and the same for a clip call. -/
theorem C6_cache_idempotent_witness :
    ((Except.ok (CacheKey.frame "v" 1 8) : Except String CacheKey) =
        .ok (CacheKey.frame "v" 1 8)
      ∧ [(CacheKey.frame "v" 1 8, [7])] = [(CacheKey.frame "v" 1 8, [7])]
      ∧ transcoderCalls [] = 0
      ∧ transcoderCalls [FsOp.mkdirParents,
          FsOp.transcoderWriteFinal (CacheKey.frame "v" 1 8)] + transcoderCalls [] ≤ 1)
    ∧ ((Except.ok (CacheKey.clip "v" 0 0.05 1 8) : Except String CacheKey) =
        .ok (CacheKey.clip "v" 0 0.05 1 8)
      ∧ [(CacheKey.clip "v" 0 0.05 1 8, [7])] = [(CacheKey.clip "v" 0 0.05 1 8, [7])]
      ∧ transcoderCalls [] = 0
      ∧ transcoderCalls [FsOp.mkdirParents,
          FsOp.transcoderWriteFinal (CacheKey.clip "v" 0 0.05 1 8)] + transcoderCalls [] ≤ 1) :=
  ⟨C6_cache_idempotent.1 (fun _ => some [7]) [] "v" 1 8 (CacheKey.frame "v" 1 8)
      (.ok (CacheKey.frame "v" 1 8)) (.ok (CacheKey.frame "v" 1 8))
      [(CacheKey.frame "v" 1 8, [7])] [(CacheKey.frame "v" 1 8, [7])]
      [FsOp.mkdirParents, FsOp.transcoderWriteFinal (CacheKey.frame "v" 1 8)] []
      rfl rfl rfl,
   C6_cache_idempotent.2 (fun _ => some [7]) [] "v" 0 0 0 8 (CacheKey.clip "v" 0 0.05 1 8)
      (.ok (CacheKey.clip "v" 0 0.05 1 8)) (.ok (CacheKey.clip "v" 0 0.05 1 8))
      [(CacheKey.clip "v" 0 0.05 1 8, [7])] [(CacheKey.clip "v" 0 0.05 1 8, [7])]
      [FsOp.mkdirParents, FsOp.transcoderWriteFinal (CacheKey.clip "v" 0 0.05 1 8)] []
      rfl rfl rfl⟩

/-! ### Claim C9 -/

/-- Counterexample for C9: a concrete cache-miss frame extraction writes
the cache entry (the entry is readable afterwards), its trace is a direct
transcoder write to the final cache path, and it contains no rename — so
the write is not performed by a temp-file-then-atomic-rename. -/
theorem C9_counterexample_direct_final_write :
    (extract_frame (fun _ => some [7]) [] "v" 1 8).2.2 =
      [FsOp.mkdirParents, FsOp.transcoderWriteFinal (CacheKey.frame "v" 1 8)]
    ∧ readCache (extract_frame (fun _ => some [7]) [] "v" 1 8).2.1
        (CacheKey.frame "v" 1 8) = some [7]
    ∧ renameCalls (extract_frame (fun _ => some [7]) [] "v" 1 8).2.2 = 0 := by
  exact ⟨rfl, rfl, rfl⟩

/-- C9 amended: every cache write is performed by the transcoder writing
directly to the final cache path: each call's trace is either empty (cache
hit) or exactly a directory creation followed by one transcoder write to
the final key, and no call ever performs a rename. -/
theorem C9_no_temp_rename_protocol :
    (∀ (ffmpeg : CacheKey → Option (List ℕ)) (fs : CacheFS) (video : String)
        (ts : ℚ) (maxSide : ℕ),
        renameCalls (extract_frame ffmpeg fs video ts maxSide).2.2 = 0
        ∧ ((extract_frame ffmpeg fs video ts maxSide).2.2 = []
           ∨ (extract_frame ffmpeg fs video ts maxSide).2.2 =
              [FsOp.mkdirParents, FsOp.transcoderWriteFinal (CacheKey.frame video ts maxSide)]))
    ∧ (∀ (ffmpeg : CacheKey → Option (List ℕ)) (fs : CacheFS) (video : String)
        (s e f : ℚ) (maxSide : ℕ),
        renameCalls (extract_clip ffmpeg fs video s e f maxSide).2.2 = 0
        ∧ ((extract_clip ffmpeg fs video s e f maxSide).2.2 = []
           ∨ (extract_clip ffmpeg fs video s e f maxSide).2.2 =
              [FsOp.mkdirParents, FsOp.transcoderWriteFinal
                (CacheKey.clip video s (effClipEnd s e) (effClipFps f) maxSide)])) := by
  constructor
  · intro ffmpeg fs video ts maxSide
    simp only [extract_frame]
    split
    · exact ⟨rfl, Or.inl rfl⟩
    · split
      · exact ⟨rfl, Or.inr rfl⟩
      · split
        · exact ⟨rfl, Or.inr rfl⟩
        · exact ⟨rfl, Or.inr rfl⟩
  · intro ffmpeg fs video s e f maxSide
    simp only [extract_clip]
    split
    · exact ⟨rfl, Or.inl rfl⟩
    · split
      · exact ⟨rfl, Or.inr rfl⟩
      · split
        · exact ⟨rfl, Or.inr rfl⟩
        · exact ⟨rfl, Or.inr rfl⟩

/-! ### Claim C5 -/

theorem lookup_map_rows (g : EpRow → ℚ × ℚ) (e : ℤ) :
    ∀ rows : List EpRow,
      List.lookup e (rows.map (fun r => (r.episode_index, g r))) =
        (rows.find? (fun r => r.episode_index == e)).map g := by
  intro rows
  induction rows with
  | nil => rfl
  | cons a t ih =>
    by_cases h : e = a.episode_index
    · simp [List.lookup, List.find?, h]
    · have h1 : (e == a.episode_index) = false := by
        simpa using h
      have h2 : (a.episode_index == e) = false := by
        simpa using (Ne.symm h)
      simp [List.lookup, List.find?, h1, h2, ih]

/-- C5: when the dataset is loaded and a video key is selected, timing
resolution for an episode whose row carries both concatenation offsets
returns them verbatim as `video_start_time`/`video_end_time`; an episode
whose row lacks either offset (or whose table lacks the columns) falls
back, for that episode only, to `video_start_time = 0` and
`video_end_time = duration`, where `duration = length / fps` for a
non-zero fps. -/
theorem C5_timing_resolution :
    ∀ (m : Manager) (tbl : EpisodesTable) (fpsOpt : Option ℚ) (vk : String)
      (e : ℤ) (row : EpRow),
      m.episodes = some tbl → m.info = some fpsOpt → m.video_key = some vk →
      tbl.rows.find? (fun r => r.episode_index == e) = some row →
      (∀ f t : ℚ, tbl.hasTsCols = true → row.from_ts = some f → row.to_ts = some t →
          get_episode_timing m e =
            .ok ⟨fpsOpt.getD 30, row.length,
                 episodeDuration row.length (fpsOpt.getD 30), f, t⟩)
      ∧ ((tbl.hasTsCols = false ∨ row.from_ts = none ∨ row.to_ts = none) →
          get_episode_timing m e =
            .ok ⟨fpsOpt.getD 30, row.length,
                 episodeDuration row.length (fpsOpt.getD 30), 0,
                 episodeDuration row.length (fpsOpt.getD 30)⟩)
      ∧ (fpsOpt.getD 30 ≠ 0 →
          episodeDuration row.length (fpsOpt.getD 30) =
            (row.length : ℚ) / fpsOpt.getD 30) := by
  intro m tbl fpsOpt vk e row hme hinfo hvk hfind
  have hlk : (calculate_video_offsets tbl (fpsOpt.getD 30)).lookup row.episode_index =
      some (offsetsForRow tbl.hasTsCols (fpsOpt.getD 30) row) := by
    have he := List.find?_some hfind
    have he' : row.episode_index = e := by simpa using he
    rw [calculate_video_offsets, lookup_map_rows, he', hfind, Option.map_some']
  have hget : get_episode_timing m e =
      .ok ⟨fpsOpt.getD 30, row.length, episodeDuration row.length (fpsOpt.getD 30),
           (offsetsForRow tbl.hasTsCols (fpsOpt.getD 30) row).1,
           (offsetsForRow tbl.hasTsCols (fpsOpt.getD 30) row).2⟩ := by
    simp only [get_episode_timing, hme, hinfo, hfind, hvk, hlk]
  refine ⟨?_, ?_, ?_⟩
  · intro f t hcols hf ht
    rw [hget]
    simp [offsetsForRow, hcols, hf, ht]
  · intro hfall
    rw [hget]
    rcases hfall with h | h | h
    · simp [offsetsForRow, h]
    · cases hcols : tbl.hasTsCols with
      | false => simp [offsetsForRow, hcols]
      | true => simp [offsetsForRow, hcols, h]
    · cases hcols : tbl.hasTsCols with
      | false => simp [offsetsForRow, hcols]
      | true =>
        cases hfrom : row.from_ts with
        | none => simp [offsetsForRow, hcols, hfrom]
        | some f => simp [offsetsForRow, hcols, hfrom, h]
  · intro hfps
    simp [episodeDuration, hfps]

unseal List.merge List.mergeSort Nat.gcd Rat.inv Rat.mul Rat.add Rat.sub Rat.ofScientific in
/-- Witness for C5: a two-row table mixing both behaviours — episode 0
carries offsets `[10, 12]` used verbatim, episode 1 has null offsets and
falls back to `(0, duration)` — resolved by the same loaded manager. -/
theorem C5_timing_resolution_witness :
    get_episode_timing
        ⟨some ⟨[⟨0, 30, some 10, some 12⟩, ⟨1, 60, none, none⟩], true⟩,
         some (some 30), some "cam"⟩ 0 =
      .ok ⟨(some (30 : ℚ)).getD 30, (30 : ℕ),
           episodeDuration 30 ((some (30 : ℚ)).getD 30), 10, 12⟩
    ∧ get_episode_timing
        ⟨some ⟨[⟨0, 30, some 10, some 12⟩, ⟨1, 60, none, none⟩], true⟩,
         some (some 30), some "cam"⟩ 1 =
      .ok ⟨(some (30 : ℚ)).getD 30, (60 : ℕ),
           episodeDuration 60 ((some (30 : ℚ)).getD 30), 0,
           episodeDuration 60 ((some (30 : ℚ)).getD 30)⟩ :=
  ⟨(C5_timing_resolution
      ⟨some ⟨[⟨0, 30, some 10, some 12⟩, ⟨1, 60, none, none⟩], true⟩,
       some (some 30), some "cam"⟩
      ⟨[⟨0, 30, some 10, some 12⟩, ⟨1, 60, none, none⟩], true⟩
      (some 30) "cam" 0 ⟨0, 30, some 10, some 12⟩ rfl rfl rfl (by decide)).1
      10 12 rfl rfl rfl,
   (C5_timing_resolution
      ⟨some ⟨[⟨0, 30, some 10, some 12⟩, ⟨1, 60, none, none⟩], true⟩,
       some (some 30), some "cam"⟩
      ⟨[⟨0, 30, some 10, some 12⟩, ⟨1, 60, none, none⟩], true⟩
      (some 30) "cam" 1 ⟨1, 60, none, none⟩ rfl rfl rfl (by decide)).2.1
      (Or.inr (Or.inl rfl))⟩

/-! ### Claim C4 -/

unseal Nat.gcd Rat.inv Rat.mul Rat.add Rat.sub Rat.ofScientific in
/-- Counterexample for C4: on the input `"```json {x} ```"` strategy 1
fails, strategy 2 captures the fenced region `{x}`, and its unguarded
parse failure escapes to the caller as a decode error — not as the single
"could not extract structured output" kind, although the text is not empty
and not every strategy was attempted. -/
theorem C4_counterexample_decode_error_escapes :
    extract_json_object "```json \x7bx\x7d ```" =
      .error (.jsonDecode "expecting property name")
    ∧ (ExtractErr.jsonDecode "expecting property name" ≠ .couldNotParse)
    ∧ (ExtractErr.jsonDecode "expecting property name" ≠ .emptyOutput) :=
  ⟨rfl, by decide, by decide⟩

/-- C4 amended: extraction strips the text and then tries the three
strategies in order, returning the first well-formed mapping; stripped-empty
text fails with the dedicated "empty model output" kind; a `json.loads`
failure inside strategy 2 or strategy 3 escapes as a decode error distinct
from the unified kind; and the "could not parse" kind is produced exactly
by the fall-through paths in which the attempted strategies complete
without a mapping and without raising. -/
theorem C4_extraction_strategy_order :
    ∀ text : String,
      extract_json_object text = extractCore (pyStrip text)
      ∧ (∀ t : String,
          (t = "" → extractCore t = .error .emptyOutput)
          ∧ (∀ d, t ≠ "" → jsonLoads t = .ok (.obj d) → extractCore t = .ok d)
          ∧ (∀ cand, t ≠ "" → isObjOk (jsonLoads t) = false →
              jsonBlockSearch t.data = some cand →
              (∀ d, jsonLoads cand = .ok (.obj d) → extractCore t = .ok d)
              ∧ (∀ e2, jsonLoads cand = .error e2 →
                  extractCore t = .error (.jsonDecode e2)))
          ∧ (t ≠ "" → isObjOk (jsonLoads t) = false →
              jsonBlockSearch t.data = none →
              extractCore t = tier3Result t)
          ∧ (∀ cand, tier3Span t.data = some cand →
              (∀ d, jsonLoads (String.mk cand) = .ok (.obj d) →
                  tier3Result t = .ok d)
              ∧ (∀ e2, jsonLoads (String.mk cand) = .error e2 →
                  tier3Result t = .error (.jsonDecode e2)))
          ∧ (tier3Span t.data = none → tier3Result t = .error .couldNotParse)) := by
  intro text
  constructor
  · rfl
  · intro t
    refine ⟨?_, ?_, ?_, ?_, ?_, ?_⟩
    · intro h
      simp [extractCore, h]
    · intro d hne hok
      simp [extractCore, hne, hok]
    · intro cand hne hfail hsearch
      constructor
      · intro d hok2
        cases hjl : jsonLoads t with
        | error e => simp [extractCore, hne, hjl, hsearch, hok2]
        | ok v =>
          cases v with
          | obj d' => rw [hjl] at hfail; simp [isObjOk] at hfail
          | arr l => simp [extractCore, hne, hjl, hsearch, hok2]
          | str s => simp [extractCore, hne, hjl, hsearch, hok2]
          | num q => simp [extractCore, hne, hjl, hsearch, hok2]
          | boolean b => simp [extractCore, hne, hjl, hsearch, hok2]
          | null => simp [extractCore, hne, hjl, hsearch, hok2]
      · intro e2 herr2
        cases hjl : jsonLoads t with
        | error e => simp [extractCore, hne, hjl, hsearch, herr2]
        | ok v =>
          cases v with
          | obj d' => rw [hjl] at hfail; simp [isObjOk] at hfail
          | arr l => simp [extractCore, hne, hjl, hsearch, herr2]
          | str s => simp [extractCore, hne, hjl, hsearch, herr2]
          | num q => simp [extractCore, hne, hjl, hsearch, herr2]
          | boolean b => simp [extractCore, hne, hjl, hsearch, herr2]
          | null => simp [extractCore, hne, hjl, hsearch, herr2]
    · intro hne hfail hsearch
      cases hjl : jsonLoads t with
      | error e => simp [extractCore, hne, hjl, hsearch]
      | ok v =>
        cases v with
        | obj d' => rw [hjl] at hfail; simp [isObjOk] at hfail
        | arr l => simp [extractCore, hne, hjl, hsearch]
        | str s => simp [extractCore, hne, hjl, hsearch]
        | num q => simp [extractCore, hne, hjl, hsearch]
        | boolean b => simp [extractCore, hne, hjl, hsearch]
        | null => simp [extractCore, hne, hjl, hsearch]
    · intro cand hspan
      constructor
      · intro d hok3
        simp [tier3Result, hspan, hok3]
      · intro e2 herr3
        simp [tier3Result, hspan, herr3]
    · intro hspan
      simp [tier3Result, hspan]

unseal Nat.gcd Rat.inv Rat.mul Rat.add Rat.sub Rat.ofScientific in
/-- Witness for C4: the amended characterization applied to concrete
inputs — a direct mapping for strategy 1, a fenced decode error for
strategy 2, and the empty input. -/
theorem C4_extraction_strategy_order_witness :
    extractCore (pyStrip " \x7b\"a\": 1\x7d ") = .ok [("a", JVal.num 1)]
    ∧ extractCore "" = .error .emptyOutput
    ∧ extractCore "```json \x7bx\x7d ```" =
        .error (.jsonDecode "expecting property name") := by
  refine ⟨?_, ?_, ?_⟩
  · exact ((C4_extraction_strategy_order "").2 (pyStrip " \x7b\"a\": 1\x7d ")).2.1
      [("a", JVal.num 1)] (by decide) rfl
  · exact ((C4_extraction_strategy_order "").2 "").1 rfl
  · exact (((C4_extraction_strategy_order "").2 "```json \x7bx\x7d ```").2.2.1
      "\x7bx\x7d" (by decide) rfl rfl).2 "expecting property name" rfl

/-! ### Claim C3 -/

theorem charsLtB_irrefl : ∀ a : List Char, charsLtB a a = false := by
  intro a
  induction a with
  | nil => rfl
  | cons c t ih => simp [charsLtB, ih]

theorem charsLtB_trans :
    ∀ a b c : List Char, charsLtB a b = true → charsLtB b c = true →
      charsLtB a c = true := by
  intro a
  induction a with
  | nil =>
    intro b c hab hbc
    cases b with
    | nil => simp [charsLtB] at hab
    | cons y ys =>
      cases c with
      | nil => simp [charsLtB] at hbc
      | cons z zs => simp [charsLtB]
  | cons x xs ih =>
    intro b c hab hbc
    cases b with
    | nil => simp [charsLtB] at hab
    | cons y ys =>
      cases c with
      | nil => simp [charsLtB] at hbc
      | cons z zs =>
        simp only [charsLtB] at hab hbc ⊢
        by_cases h1 : x < y
        · by_cases h2 : y < z
          · simp [lt_trans h1 h2]
          · by_cases h3 : z < y
            · simp [h2, h3] at hbc
            · have hyz : y = z := le_antisymm (not_lt.mp h3) (not_lt.mp h2)
              subst hyz
              simp [h1]
        · by_cases h1' : y < x
          · simp [h1, h1'] at hab
          · have hxy : x = y := le_antisymm (not_lt.mp h1') (not_lt.mp h1)
            subst hxy
            simp only [lt_irrefl, if_false] at hab
            by_cases h2 : x < z
            · simp [h2]
            · by_cases h3 : z < x
              · simp [h2, h3] at hbc
              · have hxz : x = z := le_antisymm (not_lt.mp h3) (not_lt.mp h2)
                subst hxz
                simp only [lt_irrefl, if_false] at hbc ⊢
                exact ih ys zs hab hbc

theorem charsLtB_eq_of_not_lt :
    ∀ a b : List Char, charsLtB a b = false → charsLtB b a = false → a = b := by
  intro a
  induction a with
  | nil =>
    intro b hab _
    cases b with
    | nil => rfl
    | cons y ys => simp [charsLtB] at hab
  | cons x xs ih =>
    intro b hab hba
    cases b with
    | nil => simp [charsLtB] at hba
    | cons y ys =>
      simp only [charsLtB] at hab hba
      by_cases h1 : x < y
      · simp [h1] at hab
      · by_cases h2 : y < x
        · simp [h1, h2] at hba
        · have hxy : x = y := le_antisymm (not_lt.mp h2) (not_lt.mp h1)
          subst hxy
          simp only [lt_irrefl, if_false] at hab hba
          rw [ih ys hab hba]

theorem charsLtB_asymm :
    ∀ a b : List Char, charsLtB a b = true → charsLtB b a = false := by
  intro a b hab
  by_contra h
  have hba : charsLtB b a = true := by
    cases hb : charsLtB b a with
    | true => rfl
    | false => exact absurd hb h
  have := charsLtB_trans a b a hab hba
  rw [charsLtB_irrefl] at this
  exact Bool.false_ne_true this

theorem strLeB_trans_bool :
    ∀ a b c : String, strLeB a b = true → strLeB b c = true → strLeB a c = true := by
  intro a b c hab hbc
  simp only [strLeB, strLtB, Bool.not_eq_true'] at hab hbc ⊢
  cases hca : charsLtB c.data a.data with
  | false => rfl
  | true =>
    exfalso
    cases hBC : charsLtB b.data c.data with
    | true =>
      have h := charsLtB_trans _ _ _ hBC hca
      rw [hab] at h
      exact Bool.false_ne_true h
    | false =>
      have heq : c.data = b.data := charsLtB_eq_of_not_lt c.data b.data hbc hBC
      rw [heq, hab] at hca
      exact Bool.false_ne_true hca

theorem strLeB_total_bool :
    ∀ a b : String, (strLeB a b || strLeB b a) = true := by
  intro a b
  simp only [strLeB, Bool.or_eq_true, Bool.not_eq_true']
  by_cases h : strLtB b a = true
  · right
    exact charsLtB_asymm _ _ h
  · left
    cases hx : strLtB b a with
    | true => exact absurd hx h
    | false => rfl

theorem lookup_isSome_iff_mem_fst :
    ∀ (m : List (String × ℤ)) (k : String),
      (List.lookup k m).isSome = true ↔ k ∈ m.map Prod.fst := by
  intro m k
  induction m with
  | nil => simp [List.lookup]
  | cons p t ih =>
    by_cases h : k = p.1
    · simp [List.lookup, h]
    · have hb : (k == p.1) = false := by simpa using h
      simp [List.lookup, hb, ih, h]

theorem foldl_keyStep_fst :
    ∀ (hs : List String) (m : List (String × ℤ)),
      ((hs.foldl keyStep m).map Prod.fst) =
        hs.foldl (fun acc k => if k ∈ acc then acc else acc ++ [k]) (m.map Prod.fst) := by
  intro hs
  induction hs with
  | nil => intro m; rfl
  | cons k t ih =>
    intro m
    simp only [List.foldl_cons]
    cases hlk : List.lookup k m with
    | some v =>
      have hmem : k ∈ m.map Prod.fst := by
        rw [← lookup_isSome_iff_mem_fst, hlk]
        rfl
      rw [show keyStep m k = m from by simp [keyStep, hlk]]
      rw [if_pos hmem]
      exact ih m
    | none =>
      have hmem : k ∉ m.map Prod.fst := by
        rw [← lookup_isSome_iff_mem_fst, hlk]
        simp
      rw [show keyStep m k = m ++ [(k, (m.length : ℤ))] from by simp [keyStep, hlk]]
      rw [if_neg hmem]
      rw [ih (m ++ [(k, (m.length : ℤ))])]
      simp

theorem foldl_keyStep_snd :
    ∀ (hs : List String) (m : List (String × ℤ)),
      m.map Prod.snd = (List.range m.length).map Int.ofNat →
      (hs.foldl keyStep m).map Prod.snd =
        (List.range (hs.foldl keyStep m).length).map Int.ofNat := by
  intro hs
  induction hs with
  | nil => intro m hm; exact hm
  | cons k t ih =>
    intro m hm
    simp only [List.foldl_cons]
    cases hlk : List.lookup k m with
    | some v =>
      rw [show keyStep m k = m from by simp [keyStep, hlk]]
      exact ih m hm
    | none =>
      rw [show keyStep m k = m ++ [(k, (m.length : ℤ))] from by simp [keyStep, hlk]]
      refine ih _ ?_
      rw [List.map_append, List.length_append, hm]
      simp [List.range_succ]

theorem build_high_level_map_eq_foldl :
    ∀ (anns : AnnSet) (m : List (String × ℤ)),
      anns.foldl
        (fun m' p => p.2.high_levels.foldl (fun m'' h => keyStep m'' (make_task_key h)) m') m =
      ((anns.flatMap (fun p => p.2.high_levels)).map make_task_key).foldl keyStep m := by
  intro anns
  induction anns with
  | nil => intro m; rfl
  | cons p t ih =>
    intro m
    rw [List.foldl_cons, List.flatMap_cons, List.map_append, List.foldl_append]
    rw [List.foldl_map make_task_key keyStep p.2.high_levels m]
    exact ih _

/-- Counterexample data for C3 is stated in
`C3_counterexample_sorted_not_first_seen`; this lemma is the sorted-keys
part of the amended claim. -/
theorem build_subtask_map_keys :
    ∀ anns : AnnSet,
      (build_subtask_map anns).map Prod.fst =
        ((((allSubtaskLabels anns).filter (fun l => !(l == ""))).dedup).mergeSort strLeB) := by
  intro anns
  simp only [build_subtask_map, List.map_map]
  have hcomp :
      (Prod.fst ∘ fun p : ℕ × String => (p.2, (p.1 : ℤ))) = Prod.snd := by
    funext p; rfl
  rw [hcomp, List.enum_map_snd]

unseal List.merge List.mergeSort Nat.gcd Rat.inv Rat.mul Rat.add Rat.sub Rat.ofScientific in
/-- Counterexample for C3: with subtask labels first seen in the order
`"b", "a"`, the source numbers them in sorted order (`a` before `b`),
not in first-seen order as the claim states. -/
theorem C3_counterexample_sorted_not_first_seen :
    build_subtask_map [(0, ⟨[⟨0, 1, "b"⟩, ⟨1, 2, "a"⟩], [], []⟩)] = [("a", 0), ("b", 1)]
    ∧ firstSeenSubtaskMap [(0, ⟨[⟨0, 1, "b"⟩, ⟨1, 2, "a"⟩], [], []⟩)] = [("b", 0), ("a", 1)]
    ∧ build_subtask_map [(0, ⟨[⟨0, 1, "b"⟩, ⟨1, 2, "a"⟩], [], []⟩)] ≠
        firstSeenSubtaskMap [(0, ⟨[⟨0, 1, "b"⟩, ⟨1, 2, "a"⟩], [], []⟩)] :=
  ⟨by decide, by decide, by decide⟩

/-- C3 amended: both export mappings are built once from the whole
annotation set and shared by every episode, so identical label text
resolves to the same index; the subtask label map numbers the distinct
non-empty labels `0,1,2,...` in ascending code-point order (not first-seen
order), while the high-level task-key map numbers the distinct task keys
`0,1,2,...` in first-seen traversal order. -/
theorem C3_export_maps_numbering :
    (∀ anns : AnnSet,
        ((build_subtask_map anns).map Prod.fst).Pairwise (fun a b => strLtB a b = true))
    ∧ (∀ anns : AnnSet,
        (build_subtask_map anns).map Prod.snd =
          (List.range (build_subtask_map anns).length).map Int.ofNat)
    ∧ (∀ (anns : AnnSet) (l : String),
        l ∈ (build_subtask_map anns).map Prod.fst ↔
          l ≠ "" ∧ l ∈ allSubtaskLabels anns)
    ∧ (∀ anns : AnnSet,
        (build_high_level_map anns).map Prod.fst = firstSeenList (allTaskKeys anns))
    ∧ (∀ anns : AnnSet,
        (build_high_level_map anns).map Prod.snd =
          (List.range (build_high_level_map anns).length).map Int.ofNat) := by
  refine ⟨?_, ?_, ?_, ?_, ?_⟩
  · intro anns
    rw [build_subtask_map_keys]
    have hsorted :=
      List.sorted_mergeSort
        (fun a b c hab hbc => strLeB_trans_bool a b c hab hbc)
        (fun a b => strLeB_total_bool a b)
        (((allSubtaskLabels anns).filter (fun l => !(l == ""))).dedup)
    have hnd : ((((allSubtaskLabels anns).filter (fun l => !(l == ""))).dedup).mergeSort
        strLeB).Nodup :=
      (List.mergeSort_perm _ strLeB).symm.nodup (List.nodup_dedup _)
    refine List.Pairwise.imp₂ ?_ hsorted hnd
    intro a b hle hne
    cases hlt : strLtB a b with
    | true => rfl
    | false =>
      exfalso
      apply hne
      simp only [strLeB, Bool.not_eq_true'] at hle
      have : a.data = b.data := charsLtB_eq_of_not_lt a.data b.data hlt hle
      exact congrArg String.mk this
  · intro anns
    simp only [build_subtask_map, List.map_map]
    have hcomp :
        (Prod.snd ∘ fun p : ℕ × String => (p.2, (p.1 : ℤ))) = Int.ofNat ∘ Prod.fst := by
      funext p; rfl
    rw [hcomp, ← List.map_map, List.enum_map_fst, List.length_map, List.enum_length]
  · intro anns l
    rw [build_subtask_map_keys]
    rw [List.mem_mergeSort, List.mem_dedup, List.mem_filter]
    simp [and_comm]
  · intro anns
    rw [build_high_level_map, build_high_level_map_eq_foldl]
    rw [foldl_keyStep_fst]
    rfl
  · intro anns
    rw [build_high_level_map, build_high_level_map_eq_foldl]
    exact foldl_keyStep_snd _ [] rfl

unseal List.merge List.mergeSort Nat.gcd Rat.inv Rat.mul Rat.add Rat.sub Rat.ofScientific in
/-- Witness for C3: the amended characterization applied to a concrete
annotation set with labels first seen as `"b", "a"` and two distinct task
keys. -/
theorem C3_export_maps_numbering_witness :
    ((build_subtask_map [(0, ⟨[⟨0, 1, "b"⟩, ⟨1, 2, "a"⟩], [], []⟩)]).map
        Prod.fst).Pairwise (fun a b => strLtB a b = true)
    ∧ ("a" ∈ (build_subtask_map [(0, ⟨[⟨0, 1, "b"⟩, ⟨1, 2, "a"⟩], [], []⟩)]).map Prod.fst ↔
        "a" ≠ "" ∧ "a" ∈ allSubtaskLabels [(0, ⟨[⟨0, 1, "b"⟩, ⟨1, 2, "a"⟩], [], []⟩)])
    ∧ (build_high_level_map
          [(0, ⟨[], [⟨0, 1, "q1", "r1", none, "vqa", "answer"⟩,
                     ⟨1, 2, "q2", "r2", none, "vqa", "answer"⟩], []⟩)]).map Prod.fst =
        firstSeenList (allTaskKeys
          [(0, ⟨[], [⟨0, 1, "q1", "r1", none, "vqa", "answer"⟩,
                     ⟨1, 2, "q2", "r2", none, "vqa", "answer"⟩], []⟩)]) :=
  ⟨C3_export_maps_numbering.1 [(0, ⟨[⟨0, 1, "b"⟩, ⟨1, 2, "a"⟩], [], []⟩)],
   C3_export_maps_numbering.2.2.1 [(0, ⟨[⟨0, 1, "b"⟩, ⟨1, 2, "a"⟩], [], []⟩)] "a",
   C3_export_maps_numbering.2.2.2.1
     [(0, ⟨[], [⟨0, 1, "q1", "r1", none, "vqa", "answer"⟩,
                ⟨1, 2, "q2", "r2", none, "vqa", "answer"⟩], []⟩)]⟩
